import Mathlib

/-!
Verification of the Mandelbrot-viewer program (`src/main.rs`).

The program's `f64`/`f32` arithmetic is modelled exactly over `ℚ`; machine
integers (`u32`, `usize`, `u8`) are modelled as `Nat`. All definitions are
transcribed from the Rust source.
-/

namespace MandelbrotGui

/-- Model of `num_complex::Complex<f64>`, components as rationals. -/
structure Complex where
  re : ℚ
  im : ℚ
deriving DecidableEq, Repr

/-- Complex multiplication, as `num_complex` implements `z * z`. -/
instance : Mul Complex where
  mul a b := ⟨a.re * b.re - a.im * b.im, a.re * b.im + a.im * b.re⟩

/-- Complex addition, as `num_complex` implements `z + c`. -/
instance : Add Complex where
  add a b := ⟨a.re + b.re, a.im + b.im⟩

theorem Complex.mul_def (a b : Complex) :
    a * b = ⟨a.re * b.re - a.im * b.im, a.re * b.im + a.im * b.re⟩ := rfl

theorem Complex.add_def (a b : Complex) :
    a + b = ⟨a.re + b.re, a.im + b.im⟩ := rfl

/-- Squared magnitude `Complex::norm_sqr`, that is `re² + im²`. -/
def Complex.norm_sqr (z : Complex) : ℚ := z.re * z.re + z.im * z.im

/-- The constant `MAX_ITER: u32 = 256`. -/
def MAX_ITER : Nat := 256

/-- The `for i in 0..MAX_ITER` loop of `fn mandelbrot`, with the current
iterate `z` and the loop counter `i` made explicit; `fuel` counts the
remaining iterations, so `fuel = MAX_ITER - i` at every call site and
`fuel = 0` is the loop-exhausted case that falls through to `MAX_ITER`. -/
def mandelbrotLoop (c : Complex) : Nat → Complex → Nat → Nat
  | 0, _, _ => MAX_ITER
  | fuel + 1, z, i =>
    if 4 < z.norm_sqr then i
    else mandelbrotLoop c fuel (z * z + c) (i + 1)

/-- Escape-time evaluator `fn mandelbrot(c: Complex<f64>) -> u32`, starting
from `z = 0` with counter `i = 0`. -/
def mandelbrot (c : Complex) : Nat := mandelbrotLoop c MAX_ITER ⟨0, 0⟩ 0

/-- The mathematical orbit `z₀ = 0`, `z_{n+1} = z_n² + c`, used to state the
escape-time contract. -/
def zIter (c : Complex) : Nat → Complex
  | 0 => ⟨0, 0⟩
  | n + 1 => zIter c n * zIter c n + c

theorem mandelbrotLoop_zero (c z : Complex) (i : Nat) :
    mandelbrotLoop c 0 z i = MAX_ITER := rfl

theorem mandelbrotLoop_succ (c z : Complex) (fuel i : Nat) :
    mandelbrotLoop c (fuel + 1) z i =
      if 4 < z.norm_sqr then i else mandelbrotLoop c fuel (z * z + c) (i + 1) := rfl

theorem zIter_succ_eq (c : Complex) (i : Nat) :
    zIter c i * zIter c i + c = zIter c (i + 1) := rfl

/-- Invariant proof for the escape-time loop: started at step `i` on the
`i`-th orbit point with the remaining fuel, it either exhausts the cap with
every checked orbit point inside the threshold, or stops at the first index
`r ≥ i` whose orbit point has squared magnitude above `4`. -/
theorem mandelbrotLoop_spec (c : Complex) :
    ∀ (fuel i : Nat), i + fuel = MAX_ITER →
      (mandelbrotLoop c fuel (zIter c i) i = MAX_ITER ∧
        ∀ j, i ≤ j → j < MAX_ITER → Complex.norm_sqr (zIter c j) ≤ 4) ∨
      (∃ r, mandelbrotLoop c fuel (zIter c i) i = r ∧ i ≤ r ∧ r < MAX_ITER ∧
        4 < Complex.norm_sqr (zIter c r) ∧
        ∀ j, i ≤ j → j < r → Complex.norm_sqr (zIter c j) ≤ 4) := by
  intro fuel
  induction fuel with
  | zero =>
    intro i hi
    left
    refine ⟨mandelbrotLoop_zero c _ i, fun j hij hj => ?_⟩
    rw [MAX_ITER] at hi hj
    omega
  | succ fuel ih =>
    intro i hi
    rw [mandelbrotLoop_succ]
    by_cases hesc : 4 < Complex.norm_sqr (zIter c i)
    · right
      refine ⟨i, if_pos hesc, le_refl i, by rw [MAX_ITER] at hi ⊢; omega, hesc,
        fun j hij hj => absurd (lt_of_le_of_lt hij hj) (lt_irrefl i)⟩
    · rw [if_neg hesc, zIter_succ_eq]
      rcases ih (i + 1) (by omega) with ⟨h1, h2⟩ | ⟨r, hr, hir, hrlt, hresc, hall⟩
      · left
        refine ⟨h1, fun j hij hj => ?_⟩
        rcases Nat.eq_or_lt_of_le hij with rfl | hlt
        · exact le_of_not_lt hesc
        · exact h2 j hlt hj
      · right
        refine ⟨r, hr, by omega, hrlt, hresc, fun j hij hjr => ?_⟩
        rcases Nat.eq_or_lt_of_le hij with rfl | hlt
        · exact le_of_not_lt hesc
        · exact hall j hlt hjr

/-- The orbit of `c = 0` is constantly `0`. -/
theorem zIter_zero_c (j : Nat) : zIter ⟨0, 0⟩ j = ⟨0, 0⟩ := by
  induction j with
  | zero => rfl
  | succ j ih => simp [zIter, ih, Complex.mul_def, Complex.add_def]

/-- On the origin `mandelbrot` returns `256`: every orbit point is `0`. -/
theorem mandelbrot_zero_eq : mandelbrot ⟨0, 0⟩ = 256 := by
  rcases mandelbrotLoop_spec ⟨0, 0⟩ MAX_ITER 0 rfl with ⟨h1, _⟩ | ⟨r, _, _, _, hresc, _⟩
  · exact h1
  · rw [zIter_zero_c] at hresc
    norm_num [Complex.norm_sqr] at hresc

/-- Any point whose squared magnitude already exceeds `4` makes the loop stop
at the check of the first orbit point `z₁ = c`, returning `1`. -/
theorem mandelbrot_escape_first (c : Complex) (h : 4 < Complex.norm_sqr c) :
    mandelbrot c = 1 := by
  have h0 : ¬ (4 : ℚ) < Complex.norm_sqr ⟨0, 0⟩ := by norm_num [Complex.norm_sqr]
  have hz : (⟨0, 0⟩ : Complex) * ⟨0, 0⟩ + c = c := by
    cases c
    simp [Complex.mul_def, Complex.add_def]
  calc mandelbrot c
      = if 4 < Complex.norm_sqr ⟨0, 0⟩ then 0
        else mandelbrotLoop c 255 ((⟨0, 0⟩ : Complex) * ⟨0, 0⟩ + c) 1 := rfl
    _ = mandelbrotLoop c 255 c 1 := by rw [if_neg h0, hz]
    _ = if 4 < Complex.norm_sqr c then 1 else mandelbrotLoop c 254 (c * c + c) 2 := rfl
    _ = 1 := if_pos h

/-- Model of `egui::Pos2` (its `f32` components as rationals). -/
structure Pos2 where
  x : ℚ
  y : ℚ
deriving DecidableEq, Repr

/-- Pixel of `image::Rgb<u8>`; channel values are naturals below 256. -/
structure Rgb where
  r : Nat
  g : Nat
  b : Nat
deriving DecidableEq, Repr

/-- The complex coordinate that the pixel loop of `generate_mandelbrot`
assigns to pixel `(x, y)`:
`x_val = center_x + (x - width/2.0) / (width/2.0) * zoom` and likewise for
`y_val` with `height`. -/
def pixelCoord (width height : Nat) (zoom center_x center_y : ℚ) (x y : Nat) : Complex :=
  ⟨center_x + ((x : ℚ) - (width : ℚ) / 2) / ((width : ℚ) / 2) * zoom,
   center_y + ((y : ℚ) - (height : ℚ) / 2) / ((height : ℚ) / 2) * zoom⟩

/-- The pixel value written by the loop body of `generate_mandelbrot`:
`i = mandelbrot(c)`, `color_value = i % 256`, stored as `Rgb` with all three
channels equal. -/
def renderPixel (width height : Nat) (zoom center_x center_y : ℚ) (x y : Nat) : Rgb :=
  let i := mandelbrot (pixelCoord width height zoom center_x center_y x y)
  let color_value := i % 256
  ⟨color_value, color_value, color_value⟩

/-- The whole raster produced by `generate_mandelbrot`, linearized in the
row-major order of `enumerate_pixels_mut`: pixel `k` of the buffer is at
`(x, y) = (k % width, k / width)`. -/
def render (width height : Nat) (zoom center_x center_y : ℚ) : List Rgb :=
  (List.range (width * height)).map fun k =>
    renderPixel width height zoom center_x center_y (k % width) (k / width)

/-- Model of `struct MandelbrotApp`; the `ColorImage` is modelled by its pixel list
and the `TextureHandle` by an `Option Unit`. -/
structure MandelbrotApp where
  image : List Rgb
  texture_handle : Option Unit
  width : Nat
  height : Nat
  zoom : ℚ
  center_x : ℚ
  center_y : ℚ
  dragging : Bool
  last_mouse_pos : Option Pos2
deriving DecidableEq

/-- Constructor `MandelbrotApp::new`: black image, no texture, `zoom = 1`,
center `(-0.5, 0)`, not dragging, no recorded mouse position. -/
def MandelbrotApp.new (width height : Nat) : MandelbrotApp where
  image := List.replicate (width * height) ⟨0, 0, 0⟩
  texture_handle := none
  width := width
  height := height
  zoom := 1
  center_x := -(1 / 2)
  center_y := 0
  dragging := false
  last_mouse_pos := none

/-- Recompute `MandelbrotApp::generate_mandelbrot`: rebuild every pixel from the
current view parameters and replace `image.pixels` wholesale. -/
def MandelbrotApp.generate_mandelbrot (s : MandelbrotApp) : MandelbrotApp :=
  { s with image := render s.width s.height s.zoom s.center_x s.center_y }

/-- The per-frame input snapshot read inside `update`: vertical scroll
delta, primary-button-down flag, and the pointer interact position. -/
structure Input where
  raw_scroll_delta_y : ℚ
  primary_down : Bool
  pointer_interact_pos : Option Pos2
deriving DecidableEq

/-- The `f64` literal `1.1` of the scroll handler, modelled as the exact
rational `11/10`. -/
def zoom_factor : ℚ := 11 / 10

/-- The scroll-wheel block of `update`: a nonzero vertical delta divides
`zoom` by `zoom_factor` when positive and multiplies it when negative,
then recomputes the raster and invalidates the texture. -/
def scrollStep (s : MandelbrotApp) (scroll_delta_y : ℚ) : MandelbrotApp :=
  if scroll_delta_y ≠ 0 then
    let s1 :=
      if 0 < scroll_delta_y then { s with zoom := s.zoom / zoom_factor }
      else { s with zoom := s.zoom * zoom_factor }
    let s2 := s1.generate_mandelbrot
    { s2 with texture_handle := none }
  else s

/-- The drag block of `update`: when the primary button is down and a
pointer position is available, an already-dragging state with a recorded
last position pans the center by the pointer delta divided by `zoom` and
recomputes the raster; in every such case the position is recorded and
`dragging` set. When the button is up, both drag fields are cleared. -/
def dragStep (s : MandelbrotApp) (primary_down : Bool) (pointer : Option Pos2) :
    MandelbrotApp :=
  if primary_down then
    match pointer with
    | some pos =>
      let s1 :=
        if s.dragging then
          match s.last_mouse_pos with
          | some last_pos =>
            let delta_x := (pos.x - last_pos.x) / s.zoom
            let delta_y := (pos.y - last_pos.y) / s.zoom
            let s2 := { s with
              center_x := s.center_x - delta_x,
              center_y := s.center_y - delta_y }
            let s3 := s2.generate_mandelbrot
            { s3 with texture_handle := none }
          | none => s
        else s
      { s1 with dragging := true, last_mouse_pos := some pos }
    | none => s
  else { s with dragging := false, last_mouse_pos := none }

/-- The texture-reload block at the end of `update`: load a texture when
none is held. -/
def loadTexture (s : MandelbrotApp) : MandelbrotApp :=
  if s.texture_handle.isNone then { s with texture_handle := some () } else s

/-- One frame of `MandelbrotApp::update`: scroll handling, then drag
handling, then texture reload. -/
def MandelbrotApp.update (s : MandelbrotApp) (inp : Input) : MandelbrotApp :=
  loadTexture (dragStep (scrollStep s inp.raw_scroll_delta_y)
    inp.primary_down inp.pointer_interact_pos)

/-- Application states reachable by `main`: `MandelbrotApp::new(800, 600)`
followed by one initial `generate_mandelbrot`, then any sequence of frame
updates. -/
inductive Reachable : MandelbrotApp → Prop
  | init : Reachable ((MandelbrotApp.new 800 600).generate_mandelbrot)
  | step (s : MandelbrotApp) (inp : Input) :
      Reachable s → Reachable (s.update inp)

theorem generate_zoom (s : MandelbrotApp) :
    s.generate_mandelbrot.zoom = s.zoom := rfl

theorem scrollStep_zoom (s : MandelbrotApp) (d : ℚ) :
    (scrollStep s d).zoom =
      if d ≠ 0 then
        (if 0 < d then s.zoom / zoom_factor else s.zoom * zoom_factor)
      else s.zoom := by
  unfold scrollStep
  split
  · split <;> rfl
  · rfl

theorem scrollStep_drag_fields (s : MandelbrotApp) (d : ℚ) :
    (scrollStep s d).dragging = s.dragging ∧
    (scrollStep s d).last_mouse_pos = s.last_mouse_pos ∧
    (scrollStep s d).width = s.width ∧ (scrollStep s d).height = s.height := by
  unfold scrollStep
  split
  · split <;> exact ⟨rfl, rfl, rfl, rfl⟩
  · exact ⟨rfl, rfl, rfl, rfl⟩

theorem dragStep_zoom (s : MandelbrotApp) (b : Bool) (p : Option Pos2) :
    (dragStep s b p).zoom = s.zoom := by
  cases b <;> cases p <;>
    cases hd : s.dragging <;> cases hl : s.last_mouse_pos <;>
      simp [dragStep, MandelbrotApp.generate_mandelbrot, hd, hl]

theorem loadTexture_fields (s : MandelbrotApp) :
    (loadTexture s).zoom = s.zoom ∧ (loadTexture s).dragging = s.dragging ∧
    (loadTexture s).last_mouse_pos = s.last_mouse_pos := by
  unfold loadTexture
  split <;> exact ⟨rfl, rfl, rfl⟩

theorem norm_sqr_three : (4 : ℚ) < Complex.norm_sqr ⟨3, 0⟩ := by
  norm_num [Complex.norm_sqr]

theorem mandelbrot_three : mandelbrot ⟨3, 0⟩ = 1 :=
  mandelbrot_escape_first ⟨3, 0⟩ norm_sqr_three

theorem mandelbrot_le (c : Complex) : mandelbrot c ≤ 256 := by
  rcases mandelbrotLoop_spec c MAX_ITER 0 rfl with ⟨h1, _⟩ | ⟨r, hr, _, hrlt, _, _⟩
  · exact le_of_eq h1
  · have hm : mandelbrot c = r := hr
    rw [hm]
    exact le_of_lt hrlt

/-- C1: for every complex input `c`, `mandelbrot` iterates `z ← z² + c` from
`z = 0` with cap `N = 256` and returns the first iteration count whose orbit
point has squared magnitude above 4; when no checked orbit point escapes, it
returns exactly 256. -/
theorem mandelbrot_escape_time_spec (c : Complex) :
    (mandelbrot c = 256 ∧ ∀ j, j < 256 → Complex.norm_sqr (zIter c j) ≤ 4) ∨
    (mandelbrot c < 256 ∧ 4 < Complex.norm_sqr (zIter c (mandelbrot c)) ∧
      ∀ j, j < mandelbrot c → Complex.norm_sqr (zIter c j) ≤ 4) := by
  rcases mandelbrotLoop_spec c MAX_ITER 0 rfl with ⟨h1, h2⟩ | ⟨r, hr, _, hrlt, hresc, hall⟩
  · exact Or.inl ⟨h1, fun j hj => h2 j (Nat.zero_le j) hj⟩
  · have hm : mandelbrot c = r := hr
    refine Or.inr ⟨?_, ?_, fun j hj => hall j (Nat.zero_le j) ?_⟩
    · rw [hm]; exact hrlt
    · rw [hm]; exact hresc
    · rw [hm] at hj; exact hj

/-- Instantiation of the C1 contract at `c = 3`. -/
theorem mandelbrot_escape_time_spec_witness :
    (mandelbrot ⟨3, 0⟩ = 256 ∧ ∀ j, j < 256 → Complex.norm_sqr (zIter ⟨3, 0⟩ j) ≤ 4) ∨
    (mandelbrot ⟨3, 0⟩ < 256 ∧
      4 < Complex.norm_sqr (zIter ⟨3, 0⟩ (mandelbrot ⟨3, 0⟩)) ∧
      ∀ j, j < mandelbrot ⟨3, 0⟩ → Complex.norm_sqr (zIter ⟨3, 0⟩ j) ≤ 4) :=
  mandelbrot_escape_time_spec ⟨3, 0⟩

/-- C5 counterexample: the evaluator at `c = 3+0i` returns 1, not 0 — the
first check sees `z₀ = 0`, which has not escaped, so one iteration runs. -/
theorem mandelbrot_three_counterexample :
    mandelbrot ⟨3, 0⟩ = 1 ∧ mandelbrot ⟨3, 0⟩ ≠ 0 :=
  ⟨mandelbrot_three, by rw [mandelbrot_three]; decide⟩

/-- C5 (amended): the representative `c = 3+0i` escapes at the first check
after one iteration, returning 1; for every `c` with squared magnitude above
4 (`|c| > 2`) the evaluator returns a value strictly below the cap 256. -/
theorem escape_representative_spec :
    mandelbrot ⟨3, 0⟩ = 1 ∧
    ∀ c : Complex, 4 < Complex.norm_sqr c → mandelbrot c < 256 :=
  ⟨mandelbrot_three, fun c h => by rw [mandelbrot_escape_first c h]; omega⟩

/-- Instantiation of the amended C5 at `c = 3`. -/
theorem escape_representative_spec_witness :
    mandelbrot ⟨3, 0⟩ = 1 ∧
    (4 < Complex.norm_sqr ⟨3, 0⟩ ∧ mandelbrot ⟨3, 0⟩ < 256) :=
  ⟨escape_representative_spec.1,
    norm_sqr_three, escape_representative_spec.2 ⟨3, 0⟩ norm_sqr_three⟩

/-- C6: on `c = 0` the orbit is constantly 0, its squared magnitude never
exceeds 4, and the evaluator returns exactly the cap `N = 256`. -/
theorem origin_returns_cap :
    (∀ j, zIter ⟨0, 0⟩ j = ⟨0, 0⟩) ∧
    (∀ j, Complex.norm_sqr (zIter ⟨0, 0⟩ j) ≤ 4) ∧
    mandelbrot ⟨0, 0⟩ = 256 :=
  ⟨zIter_zero_c,
    fun j => by rw [zIter_zero_c]; norm_num [Complex.norm_sqr],
    mandelbrot_zero_eq⟩

/-- Instantiation of C6 at orbit index 5. -/
theorem origin_returns_cap_witness :
    zIter ⟨0, 0⟩ 5 = ⟨0, 0⟩ ∧
    Complex.norm_sqr (zIter ⟨0, 0⟩ 5) ≤ 4 ∧
    mandelbrot ⟨0, 0⟩ = 256 :=
  ⟨origin_returns_cap.1 5, origin_returns_cap.2.1 5, origin_returns_cap.2.2⟩

theorem pixelCoord_center_example : pixelCoord 2 2 1 0 0 1 1 = ⟨0, 0⟩ := by
  norm_num [pixelCoord]

/-- C9: the evaluator returns at most 256; `i % 256` is the identity on every
escaping result and maps the sole non-escaping result 256 to 0, so a
non-escaping pixel is rendered with grayscale 0, the same value an
iteration count of 0 would produce. -/
theorem modulo_reduction_spec :
    (∀ c, mandelbrot c ≤ 256) ∧
    (∀ c, mandelbrot c < 256 → mandelbrot c % 256 = mandelbrot c) ∧
    (∀ c, mandelbrot c = 256 → mandelbrot c % 256 = 0 % 256) ∧
    (∀ width height zoom cx cy x y,
      mandelbrot (pixelCoord width height zoom cx cy x y) = 256 →
      renderPixel width height zoom cx cy x y = ⟨0, 0, 0⟩) := by
  refine ⟨mandelbrot_le, fun c h => Nat.mod_eq_of_lt h, fun c h => by rw [h], ?_⟩
  intro width height zoom cx cy x y hm
  simp [renderPixel, hm]

/-- Mapping written from the spec's words (§4.2):
`re = center_x + (x - width/2) / (width/2) * zoom` and
`im = center_y + (y - height/2) / (height/2) * zoom`. -/
def specPixelCoord (width height : Nat) (zoom center_x center_y : ℚ) (x y : Nat) :
    Complex :=
  ⟨center_x + ((x : ℚ) - (width : ℚ) / 2) / ((width : ℚ) / 2) * zoom,
   center_y + ((y : ℚ) - (height : ℚ) / 2) / ((height : ℚ) / 2) * zoom⟩

/-- C2 counterexample: with odd dimensions (3×3, zoom 1, center `(0, 0)`)
the integer center pixel `(width/2, height/2) = (1, 1)` maps to
`(-1/3, -1/3)`, not exactly to the center. -/
theorem center_pixel_counterexample :
    pixelCoord 3 3 1 0 0 (3 / 2) (3 / 2) = ⟨-(1 / 3), -(1 / 3)⟩ ∧
    pixelCoord 3 3 1 0 0 (3 / 2) (3 / 2) ≠ ⟨0, 0⟩ := by
  constructor <;> norm_num [pixelCoord]

/-- C2 (amended): the raster mapper realizes exactly the spec's per-axis
formula, each axis scaled by its own half-dimension; when `width` and
`height` are positive and even, the integer center pixel
`(width/2, height/2)` maps exactly to `(center_x, center_y)`. -/
theorem pixel_mapping_spec :
    (∀ width height zoom cx cy x y,
      pixelCoord width height zoom cx cy x y =
        specPixelCoord width height zoom cx cy x y) ∧
    (∀ width height zoom cx cy, 0 < width → 0 < height →
      width % 2 = 0 → height % 2 = 0 →
      pixelCoord width height zoom cx cy (width / 2) (height / 2) = ⟨cx, cy⟩) := by
  refine ⟨fun _ _ _ _ _ _ _ => rfl, ?_⟩
  intro width height zoom cx cy hw hh hwe hhe
  obtain ⟨k, rfl⟩ : ∃ k, width = 2 * k := ⟨width / 2, by omega⟩
  obtain ⟨l, rfl⟩ : ∃ l, height = 2 * l := ⟨height / 2, by omega⟩
  have hk : 2 * k / 2 = k := by omega
  have hl : 2 * l / 2 = l := by omega
  rw [hk, hl]
  unfold pixelCoord
  have hkq : ((2 * k : Nat) : ℚ) / 2 = (k : ℚ) := by push_cast; ring
  have hlq : ((2 * l : Nat) : ℚ) / 2 = (l : ℚ) := by push_cast; ring
  rw [hkq, hlq]
  simp

/-- Instantiation of the amended C2 on a 4×2 raster. -/
theorem pixel_mapping_spec_witness :
    pixelCoord 4 2 1 5 7 0 0 = specPixelCoord 4 2 1 5 7 0 0 ∧
    (0 < 4 ∧ 0 < 2 ∧ 4 % 2 = 0 ∧ 2 % 2 = 0 ∧
      pixelCoord 4 2 1 5 7 (4 / 2) (2 / 2) = ⟨5, 7⟩) :=
  ⟨pixel_mapping_spec.1 4 2 1 5 7 0 0,
    by decide, by decide, by decide, by decide,
    pixel_mapping_spec.2 4 2 1 5 7 (by decide) (by decide) (by decide) (by decide)⟩

/-- C7: every pixel of the recomputed raster holds, at its row-major index,
the grayscale value `mandelbrot(c) % 256` in all three channels; the raster
has exactly `width * height` pixels; and the output is independent of the
previous image contents. -/
theorem raster_overwrite_spec :
    (∀ (s : MandelbrotApp) (x y : Nat), x < s.width → y < s.height →
      s.generate_mandelbrot.image.get? (y * s.width + x) =
        some ⟨mandelbrot (pixelCoord s.width s.height s.zoom s.center_x s.center_y x y) % 256,
              mandelbrot (pixelCoord s.width s.height s.zoom s.center_x s.center_y x y) % 256,
              mandelbrot (pixelCoord s.width s.height s.zoom s.center_x s.center_y x y) % 256⟩) ∧
    (∀ s : MandelbrotApp, s.generate_mandelbrot.image.length = s.width * s.height) ∧
    (∀ (s : MandelbrotApp) (img : List Rgb) (tex : Option Unit),
      ({ s with image := img, texture_handle := tex } :
        MandelbrotApp).generate_mandelbrot.image = s.generate_mandelbrot.image) := by
  refine ⟨?_, fun s => by simp [MandelbrotApp.generate_mandelbrot, render],
    fun s img tex => rfl⟩
  intro s x y hx hy
  have hw : 0 < s.width := lt_of_le_of_lt (Nat.zero_le x) hx
  have hy1 : y + 1 ≤ s.height := hy
  have hidx : y * s.width + x < s.width * s.height := by
    calc y * s.width + x < y * s.width + s.width := by omega
      _ = (y + 1) * s.width := by ring
      _ ≤ s.height * s.width := mul_le_mul_right' hy1 s.width
      _ = s.width * s.height := Nat.mul_comm _ _
  have hmod : (y * s.width + x) % s.width = x := by
    rw [Nat.mul_comm y s.width, Nat.mul_add_mod]
    exact Nat.mod_eq_of_lt hx
  have hdiv : (y * s.width + x) / s.width = y := by
    rw [Nat.mul_comm y s.width, Nat.mul_add_div hw, Nat.div_eq_of_lt hx]
    exact Nat.add_zero y
  unfold MandelbrotApp.generate_mandelbrot render
  rw [List.get?_map, List.get?_range hidx]
  simp [hmod, hdiv, renderPixel]

/-- A concrete 1×1 application state used to instantiate theorems with
hypotheses: dragging, with a recorded mouse position. -/
def appExample : MandelbrotApp where
  image := [⟨0, 0, 0⟩]
  texture_handle := none
  width := 1
  height := 1
  zoom := 1
  center_x := 10
  center_y := 10
  dragging := true
  last_mouse_pos := some ⟨0, 0⟩

/-- Instantiation of C7 on the 1×1 example state. -/
theorem raster_overwrite_spec_witness :
    0 < appExample.width ∧ 0 < appExample.height ∧
    appExample.generate_mandelbrot.image.get? (0 * appExample.width + 0) =
      some ⟨mandelbrot (pixelCoord appExample.width appExample.height appExample.zoom
              appExample.center_x appExample.center_y 0 0) % 256,
            mandelbrot (pixelCoord appExample.width appExample.height appExample.zoom
              appExample.center_x appExample.center_y 0 0) % 256,
            mandelbrot (pixelCoord appExample.width appExample.height appExample.zoom
              appExample.center_x appExample.center_y 0 0) % 256⟩ ∧
    appExample.generate_mandelbrot.image.length = appExample.width * appExample.height ∧
    ({ appExample with image := [], texture_handle := some () } :
      MandelbrotApp).generate_mandelbrot.image = appExample.generate_mandelbrot.image :=
  ⟨by decide, by decide,
    raster_overwrite_spec.1 appExample 0 0 (by decide) (by decide),
    raster_overwrite_spec.2.1 appExample,
    raster_overwrite_spec.2.2 appExample [] (some ())⟩

/-- Instantiation of C9: the escaping result at `c = 3` is fixed by the
reduction, the non-escaping origin reduces to 0 and renders black. -/
theorem modulo_reduction_spec_witness :
    mandelbrot ⟨0, 0⟩ ≤ 256 ∧
    mandelbrot ⟨3, 0⟩ % 256 = mandelbrot ⟨3, 0⟩ ∧
    mandelbrot ⟨0, 0⟩ % 256 = 0 % 256 ∧
    renderPixel 2 2 1 0 0 1 1 = ⟨0, 0, 0⟩ :=
  ⟨modulo_reduction_spec.1 ⟨0, 0⟩,
    modulo_reduction_spec.2.1 ⟨3, 0⟩ (by simp [mandelbrot_three]),
    modulo_reduction_spec.2.2.1 ⟨0, 0⟩ mandelbrot_zero_eq,
    modulo_reduction_spec.2.2.2 2 2 1 0 0 1 1
      (by rw [pixelCoord_center_example]; exact mandelbrot_zero_eq)⟩

/-- C3: a drag step taken while dragging with a recorded last position
shifts the center by exactly the pixel delta divided by `zoom`, recomputes
the raster at the shifted center with the unchanged zoom, and records the
current position as last; `zoom`, `width` and `height` are unchanged. -/
theorem drag_pan_spec (s : MandelbrotApp) (pos last_pos : Pos2)
    (hd : s.dragging = true) (hl : s.last_mouse_pos = some last_pos) :
    (dragStep s true (some pos)).center_x =
      s.center_x - (pos.x - last_pos.x) / s.zoom ∧
    (dragStep s true (some pos)).center_y =
      s.center_y - (pos.y - last_pos.y) / s.zoom ∧
    (dragStep s true (some pos)).zoom = s.zoom ∧
    (dragStep s true (some pos)).last_mouse_pos = some pos ∧
    (dragStep s true (some pos)).dragging = true ∧
    (dragStep s true (some pos)).width = s.width ∧
    (dragStep s true (some pos)).height = s.height ∧
    (dragStep s true (some pos)).image =
      render s.width s.height s.zoom
        (s.center_x - (pos.x - last_pos.x) / s.zoom)
        (s.center_y - (pos.y - last_pos.y) / s.zoom) := by
  simp [dragStep, MandelbrotApp.generate_mandelbrot, hd, hl]

/-- Instantiation of C3 on the example state: drag from `(0,0)` to `(3,4)`. -/
theorem drag_pan_spec_witness :
    appExample.dragging = true ∧
    appExample.last_mouse_pos = some ⟨0, 0⟩ ∧
    ((dragStep appExample true (some ⟨3, 4⟩)).center_x =
        appExample.center_x - ((⟨3, 4⟩ : Pos2).x - (⟨0, 0⟩ : Pos2).x) / appExample.zoom ∧
      (dragStep appExample true (some ⟨3, 4⟩)).center_y =
        appExample.center_y - ((⟨3, 4⟩ : Pos2).y - (⟨0, 0⟩ : Pos2).y) / appExample.zoom ∧
      (dragStep appExample true (some ⟨3, 4⟩)).zoom = appExample.zoom ∧
      (dragStep appExample true (some ⟨3, 4⟩)).last_mouse_pos = some ⟨3, 4⟩ ∧
      (dragStep appExample true (some ⟨3, 4⟩)).dragging = true ∧
      (dragStep appExample true (some ⟨3, 4⟩)).width = appExample.width ∧
      (dragStep appExample true (some ⟨3, 4⟩)).height = appExample.height ∧
      (dragStep appExample true (some ⟨3, 4⟩)).image =
        render appExample.width appExample.height appExample.zoom
          (appExample.center_x - ((⟨3, 4⟩ : Pos2).x - (⟨0, 0⟩ : Pos2).x) / appExample.zoom)
          (appExample.center_y - ((⟨3, 4⟩ : Pos2).y - (⟨0, 0⟩ : Pos2).y) / appExample.zoom)) :=
  ⟨rfl, rfl, drag_pan_spec appExample ⟨3, 4⟩ ⟨0, 0⟩ rfl rfl⟩

theorem update_zoom_pos (s : MandelbrotApp) (inp : Input) (h : 0 < s.zoom) :
    0 < (s.update inp).zoom := by
  unfold MandelbrotApp.update
  rw [(loadTexture_fields _).1, dragStep_zoom, scrollStep_zoom]
  split
  · split
    · exact div_pos h (by norm_num [zoom_factor])
    · exact mul_pos h (by norm_num [zoom_factor])
  · exact h

/-- C4: the initial zoom is 1 (> 0); scroll steps only divide or multiply
`zoom` by the positive factor 1.1 depending on the sign of the vertical
delta, drag steps never change `zoom`, and every reachable application state
has `zoom > 0`. -/
theorem zoom_positive_invariant :
    (MandelbrotApp.new 800 600).zoom = 1 ∧
    (∀ s d, (scrollStep s d).zoom =
      if d ≠ 0 then
        (if 0 < d then s.zoom / zoom_factor else s.zoom * zoom_factor)
      else s.zoom) ∧
    (∀ s b p, (dragStep s b p).zoom = s.zoom) ∧
    (∀ s, Reachable s → 0 < s.zoom) := by
  refine ⟨rfl, scrollStep_zoom, dragStep_zoom, ?_⟩
  intro s hs
  induction hs with
  | init => exact one_pos
  | step s inp _ ih => exact update_zoom_pos s inp ih

/-- Instantiation of C4 at the initial state, one scroll and one drag. -/
theorem zoom_positive_invariant_witness :
    (scrollStep (MandelbrotApp.new 800 600) 1).zoom =
      (if (1 : ℚ) ≠ 0 then
        (if (0 : ℚ) < 1 then (MandelbrotApp.new 800 600).zoom / zoom_factor
          else (MandelbrotApp.new 800 600).zoom * zoom_factor)
       else (MandelbrotApp.new 800 600).zoom) ∧
    (dragStep (MandelbrotApp.new 800 600) false none).zoom =
      (MandelbrotApp.new 800 600).zoom ∧
    0 < ((MandelbrotApp.new 800 600).generate_mandelbrot).zoom :=
  ⟨zoom_positive_invariant.2.1 _ 1,
    zoom_positive_invariant.2.2.1 _ false none,
    zoom_positive_invariant.2.2.2 _ Reachable.init⟩

/-- The C10 invariant: `dragging` is set exactly when a last mouse position
is recorded. -/
def dragInvariant (s : MandelbrotApp) : Prop :=
  s.dragging = s.last_mouse_pos.isSome

theorem dragStep_invariant (s : MandelbrotApp) (b : Bool) (p : Option Pos2)
    (h : dragInvariant s) : dragInvariant (dragStep s b p) := by
  unfold dragInvariant at h ⊢
  cases b <;> cases p <;>
    cases hd : s.dragging <;> cases hl : s.last_mouse_pos <;>
      simp_all [dragStep, MandelbrotApp.generate_mandelbrot]

theorem update_dragInvariant (s : MandelbrotApp) (inp : Input)
    (h : dragInvariant s) : dragInvariant (s.update inp) := by
  unfold MandelbrotApp.update
  have hscroll : dragInvariant (scrollStep s inp.raw_scroll_delta_y) := by
    unfold dragInvariant
    rw [(scrollStep_drag_fields _ _).1, (scrollStep_drag_fields _ _).2.1]
    exact h
  have hdrag := dragStep_invariant _ inp.primary_down inp.pointer_interact_pos hscroll
  unfold dragInvariant
  rw [(loadTexture_fields _).2.1, (loadTexture_fields _).2.2]
  exact hdrag

/-- C10: the drag-state invariant `dragging ↔ last_mouse_pos.isSome` holds
in the initial state (false / none), in every reachable state, and is
preserved by every frame update. -/
theorem drag_fields_invariant :
    (∀ w h, dragInvariant (MandelbrotApp.new w h)) ∧
    (∀ s, Reachable s → dragInvariant s) ∧
    (∀ s inp, dragInvariant s → dragInvariant (s.update inp)) := by
  refine ⟨fun w h => rfl, ?_, update_dragInvariant⟩
  intro s hs
  induction hs with
  | init => rfl
  | step s inp _ ih => exact update_dragInvariant s inp ih

/-- Instantiation of C10 at the initial state and one frame update. -/
theorem drag_fields_invariant_witness :
    dragInvariant (MandelbrotApp.new 800 600) ∧
    dragInvariant ((MandelbrotApp.new 800 600).generate_mandelbrot) ∧
    dragInvariant ((MandelbrotApp.new 800 600).update ⟨1, true, some ⟨2, 3⟩⟩) :=
  ⟨drag_fields_invariant.1 800 600,
    drag_fields_invariant.2.1 _ Reachable.init,
    drag_fields_invariant.2.2 _ ⟨1, true, some ⟨2, 3⟩⟩ (drag_fields_invariant.1 800 600)⟩

/-- The application state after a sequence of scroll deltas (`foldl` over
the scroll block of `update`). -/
def applyScrolls (s : MandelbrotApp) (l : List ℚ) : MandelbrotApp :=
  l.foldl scrollStep s

theorem zoom_factor_ne : zoom_factor ≠ 0 := by norm_num [zoom_factor]

theorem applyScrolls_zoom (l : List ℚ) : ∀ s : MandelbrotApp,
    (applyScrolls s l).zoom =
      s.zoom * zoom_factor ^ (l.countP fun d => decide (d < 0)) /
        zoom_factor ^ (l.countP fun d => decide (0 < d)) := by
  induction l with
  | nil => intro s; simp [applyScrolls]
  | cons d l ih =>
    intro s
    have hfold : applyScrolls s (d :: l) = applyScrolls (scrollStep s d) l := rfl
    rw [hfold, ih, scrollStep_zoom]
    rcases lt_trichotomy d 0 with hd | rfl | hd
    · rw [if_pos (ne_of_lt hd), if_neg (not_lt.mpr hd.le)]
      have hcn : ((d :: l).countP fun e => decide (e < 0)) =
          (l.countP fun e => decide (e < 0)) + 1 := by
        simp [List.countP_cons, hd]
      have hcp : ((d :: l).countP fun e => decide (0 < e)) =
          l.countP fun e => decide (0 < e) := by
        simp [List.countP_cons, not_lt.mpr hd.le]
      rw [hcn, hcp, pow_succ]
      ring
    · rw [if_neg (by norm_num)]
      have hcn : ((0 :: l : List ℚ).countP fun e => decide (e < 0)) =
          l.countP fun e => decide (e < 0) := by
        simp [List.countP_cons]
      have hcp : ((0 :: l : List ℚ).countP fun e => decide (0 < e)) =
          l.countP fun e => decide (0 < e) := by
        simp [List.countP_cons]
      rw [hcn, hcp]
    · rw [if_pos (ne_of_gt hd), if_pos hd]
      have hcn : ((d :: l).countP fun e => decide (e < 0)) =
          l.countP fun e => decide (e < 0) := by
        simp [List.countP_cons, not_lt.mpr hd.le]
      have hcp : ((d :: l).countP fun e => decide (0 < e)) =
          (l.countP fun e => decide (0 < e)) + 1 := by
        simp [List.countP_cons, hd]
      rw [hcn, hcp, pow_succ]
      field_simp
      ring

/-- C8: any interleaving of equally many zoom-in (positive delta) and
zoom-out (negative delta) scroll steps returns `zoom` exactly to its
starting value; the `f64` factor 1.1 is modelled as the exact rational
11/10. -/
theorem zoom_roundtrip_spec (s : MandelbrotApp) (l : List ℚ)
    (h : (l.countP fun d => decide (0 < d)) = l.countP fun d => decide (d < 0)) :
    (applyScrolls s l).zoom = s.zoom := by
  rw [applyScrolls_zoom, ← h, mul_div_assoc,
    div_self (pow_ne_zero _ zoom_factor_ne), mul_one]

/-- Instantiation of C8: one zoom-in followed by one zoom-out. -/
theorem zoom_roundtrip_spec_witness :
    (([1, -1] : List ℚ).countP fun d => decide (0 < d)) =
      (([1, -1] : List ℚ).countP fun d => decide (d < 0)) ∧
    (applyScrolls (MandelbrotApp.new 800 600) [1, -1]).zoom =
      (MandelbrotApp.new 800 600).zoom :=
  ⟨by decide, zoom_roundtrip_spec _ [1, -1] (by decide)⟩

end MandelbrotGui
